import Mathlib

/-!
Shallow embedding of the playlist module (src/playlist_logic.py) and proofs of
the specified properties.

Modelling conventions:
  - Python values consulted by this module (strings, ints, None, lists) are the
    inductive type PyVal.  Python floats produced by division in the statistics
    are modelled exactly as rationals.
  - Python dicts are association lists in insertion order; dict.get is pyGet.
  - Python string operations strip and lower are modelled on ASCII characters,
    the subset the module's keyword logic exercises.
  - Python comparison operators between an int and a non-int value raise
    TypeError; the embedding totalises such comparisons through pyIntVal and
    the corresponding theorems carry explicit integer-typing hypotheses, so
    nothing is claimed outside the domain where the embedding is faithful.
  - random.choice is modelled by an explicit oracle argument r : Nat picking
    index r mod length, which realises exactly the possible draws.
-/

/-- Python value universe for this module: strings, ints, None, lists. -/
inductive PyVal where
  | vstr (s : String)
  | vint (n : Int)
  | vnone
  | vlist (xs : List PyVal)

/-- A raw or normalized song: a Python dict with string keys. -/
abbrev Song := List (String × PyVal)

/-- A user profile: a Python dict with string keys. -/
abbrev Profile := List (String × PyVal)

/-- A playlist map: a Python dict from mood labels to lists of songs. -/
abbrev PlaylistMap := List (String × List Song)

mutual
/-- Python equality on PyVal values: structural on this universe. -/
def pyEq : PyVal → PyVal → Bool
  | .vstr a, .vstr b => a == b
  | .vint a, .vint b => a == b
  | .vnone, .vnone => true
  | .vlist a, .vlist b => pyEqList a b
  | _, _ => false
/-- Python equality on lists of PyVal values, elementwise. -/
def pyEqList : List PyVal → List PyVal → Bool
  | [], [] => true
  | a :: as, b :: bs => pyEq a b && pyEqList as bs
  | _, _ => false
end

mutual
/-- Python str() coercion of a PyVal. -/
def pyStr : PyVal → String
  | .vstr s => s
  | .vint n => toString n
  | .vnone => "None"
  | .vlist xs => "[" ++ pyStrList xs ++ "]"
/-- Python repr() of a PyVal, used for elements inside a list display
    (escaping inside string literals is not modelled). -/
def pyRepr : PyVal → String
  | .vstr s => "'" ++ s ++ "'"
  | .vint n => toString n
  | .vnone => "None"
  | .vlist xs => "[" ++ pyStrList xs ++ "]"
/-- Comma-separated list display of PyVal values. -/
def pyStrList : List PyVal → String
  | [] => ""
  | [x] => pyRepr x
  | x :: y :: xs => pyRepr x ++ ", " ++ pyStrList (y :: xs)
end

/-- Python truthiness of a PyVal. -/
def pyTruthy : PyVal → Bool
  | .vstr s => s != ""
  | .vint n => n != 0
  | .vnone => false
  | .vlist xs => !xs.isEmpty

/-- Integer content of a PyVal; only consulted under hypotheses that the
    value is vint (Python would raise TypeError on other operands). -/
def pyIntVal : PyVal → Int
  | .vint n => n
  | _ => 0

/-- Decidable test that a PyVal is an integer value. -/
def isIntVal : PyVal → Bool
  | .vint _ => true
  | _ => false

/-- Decidable test that a PyVal is a string value. -/
def isStrVal : PyVal → Bool
  | .vstr _ => true
  | _ => false

/-- String content of a PyVal; only consulted under hypotheses that the
    value is vstr. -/
def pyStrVal : PyVal → String
  | .vstr s => s
  | _ => ""

/-- Python dict.get with a default: first entry whose key matches. -/
def pyGet {α : Type} (d : List (String × α)) (k : String) (dflt : α) : α :=
  match d.find? (fun p => p.1 == k) with
  | some p => p.2
  | none => dflt

/-- Key membership in a string-keyed dict. -/
def hasKey {α : Type} (d : List (String × α)) (k : String) : Bool :=
  d.any (fun p => p.1 == k)

/-- Python dict lookup as an Option, for stating key-presence properties. -/
def lookupKey {α : Type} (d : List (String × α)) (k : String) : Option α :=
  (d.find? (fun p => p.1 == k)).map (fun p => p.2)

/-- Python whitespace characters (ASCII subset). -/
def isPySpace (c : Char) : Bool :=
  c = ' ' || c = '\t' || c = '\n' || c = '\r' || c = '\x0b' || c = '\x0c'

/-- ASCII lower-casing of one character, as Python str.lower on ASCII. -/
def pyLowerChar (c : Char) : Char :=
  if 65 ≤ c.toNat ∧ c.toNat ≤ 90 then Char.ofNat (c.toNat + 32) else c

/-- Python str.strip(): remove leading and trailing whitespace. -/
def pyStrip (s : String) : String :=
  ⟨List.rdropWhile isPySpace (s.data.dropWhile isPySpace)⟩

/-- Python str.lower() on the modelled ASCII alphabet. -/
def pyLower (s : String) : String :=
  ⟨s.data.map pyLowerChar⟩

/-- Python substring test: needle in hay. -/
def pyContains (hay needle : String) : Bool :=
  hay.data.tails.any (fun t => needle.data.isPrefixOf t)

/-- Run of digits possibly separated by single underscores, as accepted
    between sign and end by Python int() on a decimal literal. -/
def digitsRest : List Char → Bool
  | [] => true
  | '_' :: c :: rest => c.isDigit && digitsRest rest
  | '_' :: [] => false
  | c :: rest => c.isDigit && digitsRest rest

/-- Nonempty digit run with optional single underscores between digits. -/
def digitsOk : List Char → Bool
  | [] => false
  | '_' :: _ => false
  | c :: rest => c.isDigit && digitsRest rest

/-- Numeric value of a digit-and-underscore run. -/
def digitsVal (l : List Char) : Nat :=
  (l.filter (fun c => c != '_')).foldl (fun acc c => acc * 10 + (c.toNat - 48)) 0

/-- Python int(str) on decimal text: optional surrounding whitespace,
    optional sign, digits with optional single underscores; none on failure. -/
def pyIntParse (s : String) : Option Int :=
  match (pyStrip s).data with
  | [] => none
  | c :: rest =>
    if c = '-' then
      if digitsOk rest then some (-(digitsVal rest : Int)) else none
    else if c = '+' then
      if digitsOk rest then some ((digitsVal rest : Int)) else none
    else
      if digitsOk (c :: rest) then some ((digitsVal (c :: rest) : Int)) else none

/-- Source normalize_title (src/playlist_logic.py lines 15-19), specialised to
    its call sites, where the argument is always the result of str(). -/
def normalize_title (s : String) : String :=
  pyStrip s

/-- Source normalize_artist (lines 22-26); at its call sites the argument is a
    str() result, so falsiness is emptiness. -/
def normalize_artist (s : String) : String :=
  if s = "" then "" else pyLower (pyStrip s)

/-- Source normalize_genre (lines 29-31): lower-case then strip. -/
def normalize_genre (s : String) : String :=
  pyStrip (pyLower s)

/-- Source normalize_song (lines 34-57): build the five-field normalized dict.
    A string energy is parsed with int(), 0 on failure; any other energy value
    passes through unchanged.  A string tags value is wrapped in a list. -/
def normalize_song (raw : Song) : Song :=
  let title := normalize_title (pyStr (pyGet raw "title" (.vstr "")))
  let artist := normalize_artist (pyStr (pyGet raw "artist" (.vstr "")))
  let genre := normalize_genre (pyStr (pyGet raw "genre" (.vstr "")))
  let energy0 := pyGet raw "energy" (.vint 0)
  let energy :=
    match energy0 with
    | .vstr s =>
      match pyIntParse s with
      | some n => PyVal.vint n
      | none => PyVal.vint 0
    | v => v
  let tags0 := pyGet raw "tags" (.vlist [])
  let tags :=
    match tags0 with
    | .vstr s => PyVal.vlist [.vstr s]
    | v => v
  [("title", .vstr title), ("artist", .vstr artist), ("genre", .vstr genre),
   ("energy", energy), ("tags", tags)]

/-- Source classify_song (lines 60-80).  The energy comparisons are totalised
    through pyIntVal; theorems about them assume the compared values are
    integers, the domain on which Python does not raise. -/
def classify_song (song : Song) (profile : Profile) : String :=
  let energy := pyGet song "energy" (.vint 0)
  let genre := pyGet song "genre" (.vstr "")
  let title := pyGet song "title" (.vstr "")
  let hype_min_energy := pyGet profile "hype_min_energy" (.vint 7)
  let chill_max_energy := pyGet profile "chill_max_energy" (.vint 3)
  let favorite_genre := pyGet profile "favorite_genre" (.vstr "")
  let hype_keywords := ["rock", "punk", "party"]
  let chill_keywords := ["lofi", "ambient", "sleep"]
  let is_hype_keyword := hype_keywords.any (fun k => pyContains (pyStrVal genre) k)
  let is_chill_keyword := chill_keywords.any (fun k => pyContains (pyStrVal title) k)
  if pyEq genre favorite_genre || decide (pyIntVal energy ≥ pyIntVal hype_min_energy)
      || is_hype_keyword then "Hype"
  else if decide (pyIntVal energy ≤ pyIntVal chill_max_energy) || is_chill_keyword then
    "Chill"
  else "Mixed"

/-- Append a song to the list bound to key k, modelling playlists[k].append. -/
def appendSong (pl : PlaylistMap) (k : String) (s : Song) : PlaylistMap :=
  pl.map (fun p => if p.1 == k then (p.1, p.2 ++ [s]) else p)

/-- The record built by one iteration of the build_playlists loop: the
    normalized record with its classification attached as the mood field. -/
def processSong (profile : Profile) (s : Song) : Song :=
  normalize_song s ++ [("mood", PyVal.vstr (classify_song (normalize_song s) profile))]

/-- One iteration of the build_playlists loop (lines 91-95): normalize,
    classify the normalized record, attach the mood, append to that mood. -/
def buildStep (profile : Profile) (pl : PlaylistMap) (song : Song) : PlaylistMap :=
  appendSong pl (classify_song (normalize_song song) profile) (processSong profile song)

/-- Source build_playlists (lines 83-97): fold the loop body over the input
    songs starting from the three empty mood lists. -/
def build_playlists (songs : List Song) (profile : Profile) : PlaylistMap :=
  songs.foldl (buildStep profile) [("Hype", []), ("Chill", []), ("Mixed", [])]

/-- Keys retaining first occurrences in order, modelling the insertion order
    of Python dict and Counter keys. -/
def firstDedup : List String → List String
  | [] => []
  | x :: xs => x :: (firstDedup xs).filter (fun y => y != x)

/-- Source merge_playlists (lines 100-105).  Python iterates the key set
    set(a) | set(b) in an unspecified order; the model enumerates the same
    key set as first occurrences of a's keys then b's keys.  The proved
    properties are order-independent. -/
def merge_playlists (a b : PlaylistMap) : PlaylistMap :=
  (firstDedup (a.map (fun p => p.1) ++ b.map (fun p => p.1))).map
    (fun k => (k, pyGet a k [] ++ pyGet b k []))

/-- Flattening of all playlist sequences in map order, modelling
    the comprehension over playlists.values() (line 110). -/
def allSongs (pl : PlaylistMap) : List Song :=
  (pl.map (fun p => p.2)).flatten

/-- The non-empty artist values of songs, stringified, in order: the list
    comprehension of most_common_artist (line 137). -/
def artistsOf (songs : List Song) : List String :=
  songs.filterMap (fun s =>
    let v := pyGet s "artist" PyVal.vnone
    if pyTruthy v then some (pyStr (pyGet s "artist" (.vstr ""))) else none)

/-- Counter(artists) as an association list: keys in first-encounter order,
    each with its total multiplicity. -/
def counterList (xs : List String) : List (String × Nat) :=
  (firstDedup xs).map (fun k => (k, xs.count k))

/-- The first entry of maximal count, starting from e: Counter.most_common(1)
    keeps the earliest-inserted key among tied counts. -/
def firstMax (e : String × Nat) (l : List (String × Nat)) : String × Nat :=
  l.foldl (fun best p => if best.2 < p.2 then p else best) e

/-- Source most_common_artist (lines 133-141). -/
def most_common_artist (songs : List Song) : String × Nat :=
  match counterList (artistsOf songs) with
  | [] => ("", 0)
  | e :: rest => firstMax e rest

/-- The stats record returned by compute_playlist_stats; the two Python float
    fields are modelled as exact rationals. -/
structure Stats where
  total_songs : Nat
  hype_count : Nat
  chill_count : Nat
  mixed_count : Nat
  hype_ratio : ℚ
  avg_energy : ℚ
  top_artist : String
  top_artist_count : Nat

/-- Source compute_playlist_stats (lines 108-130). -/
def compute_playlist_stats (pl : PlaylistMap) : Stats :=
  let all_songs := allSongs pl
  let hype := pyGet pl "Hype" []
  let chill := pyGet pl "Chill" []
  let mixed := pyGet pl "Mixed" []
  let hype_ratio : ℚ :=
    if all_songs.isEmpty then 0 else (hype.length : ℚ) / (all_songs.length : ℚ)
  let avg_energy : ℚ :=
    if all_songs.isEmpty then 0
    else (((hype.map (fun s => pyIntVal (pyGet s "energy" (.vint 0)))).sum : Int) : ℚ)
      / (all_songs.length : ℚ)
  let tc := most_common_artist all_songs
  { total_songs := all_songs.length
    hype_count := hype.length
    chill_count := chill.length
    mixed_count := mixed.length
    hype_ratio := hype_ratio
    avg_energy := avg_energy
    top_artist := tc.1
    top_artist_count := tc.2 }

/-- Source random_choice_or_none (lines 177-180): random.choice picks some
    index of a nonempty list; the oracle r selects which. -/
def random_choice_or_none (r : Nat) (songs : List Song) : Option Song :=
  if songs.isEmpty then none else songs.get? (r % songs.length)

/-- Source lucky_pick (lines 167-174). -/
def lucky_pick (r : Nat) (playlists : PlaylistMap) (mode : String) : Option Song :=
  let songs_map : List (String × List Song) :=
    [("hype", pyGet playlists "Hype" []),
     ("chill", pyGet playlists "Chill" []),
     ("any", pyGet playlists "Hype" [] ++ pyGet playlists "Chill" [])]
  random_choice_or_none r (pyGet songs_map mode [])

/-- The selection pool of lucky_pick for a given mode, as the spec words it. -/
def luckyPool (playlists : PlaylistMap) (mode : String) : List Song :=
  if mode = "hype" then pyGet playlists "Hype" []
  else if mode = "chill" then pyGet playlists "Chill" []
  else if mode = "any" then pyGet playlists "Hype" [] ++ pyGet playlists "Chill" []
  else []

/-- Dict lookup with default for the PyVal-keyed mood counter. -/
def moodGet (l : List (PyVal × Nat)) (k : PyVal) (dflt : Nat) : Nat :=
  match l.find? (fun p => pyEq p.1 k) with
  | some p => p.2
  | none => dflt

/-- Key membership for the PyVal-keyed mood counter. -/
def moodHasKey (l : List (PyVal × Nat)) (k : PyVal) : Bool :=
  l.any (fun p => pyEq p.1 k)

/-- Python dict assignment counts[k] = v: update in place if a key equal to k
    exists, else append the new pair. -/
def moodSet (l : List (PyVal × Nat)) (k : PyVal) (v : Nat) : List (PyVal × Nat) :=
  if moodHasKey l k then l.map (fun p => if pyEq p.1 k then (p.1, v) else p)
  else l ++ [(k, v)]

/-- The mood field of a song, defaulting to "Mixed" (line 187). -/
def moodOf (s : Song) : PyVal :=
  pyGet s "mood" (.vstr "Mixed")

/-- One iteration of the history_summary loop (lines 186-188): increment the
    count under the song's mood, starting it at 0 when the key is new. -/
def historyStep (counts : List (PyVal × Nat)) (song : Song) : List (PyVal × Nat) :=
  moodSet counts (moodOf song) (moodGet counts (moodOf song) 0 + 1)

/-- Source history_summary (lines 183-189). -/
def history_summary (history : List Song) : List (PyVal × Nat) :=
  history.foldl historyStep [(.vstr "Hype", 0), (.vstr "Chill", 0), (.vstr "Mixed", 0)]

/-! Helper lemmas: Python equality, characters, strip and lower. -/

mutual
/-- pyEq coincides with propositional equality on PyVal. -/
theorem pyEq_iff : ∀ (a b : PyVal), pyEq a b = true ↔ a = b
  | .vstr a, .vstr b => by simp [pyEq]
  | .vint a, .vint b => by simp [pyEq]
  | .vnone, .vnone => by simp [pyEq]
  | .vlist a, .vlist b => by simp [pyEq, pyEqList_iff a b]
  | .vstr a, .vint b => by simp [pyEq]
  | .vstr a, .vnone => by simp [pyEq]
  | .vstr a, .vlist b => by simp [pyEq]
  | .vint a, .vstr b => by simp [pyEq]
  | .vint a, .vnone => by simp [pyEq]
  | .vint a, .vlist b => by simp [pyEq]
  | .vnone, .vstr b => by simp [pyEq]
  | .vnone, .vint b => by simp [pyEq]
  | .vnone, .vlist b => by simp [pyEq]
  | .vlist a, .vstr b => by simp [pyEq]
  | .vlist a, .vint b => by simp [pyEq]
  | .vlist a, .vnone => by simp [pyEq]
/-- pyEqList coincides with propositional equality on lists of PyVal. -/
theorem pyEqList_iff : ∀ (xs ys : List PyVal), pyEqList xs ys = true ↔ xs = ys
  | [], [] => by simp [pyEqList]
  | [], y :: ys => by simp [pyEqList]
  | x :: xs, [] => by simp [pyEqList]
  | x :: xs, y :: ys => by
      simp [pyEqList, pyEq_iff x y, pyEqList_iff xs ys]
end

/-- pyEq of false is symmetric. -/
theorem pyEq_symm_false (a b : PyVal) (h : pyEq a b = false) : pyEq b a = false := by
  cases hc : pyEq b a with
  | false => rfl
  | true =>
    have hba : b = a := (pyEq_iff b a).mp hc
    subst hba
    have ht : pyEq b b = true := (pyEq_iff b b).mpr rfl
    rw [ht] at h
    exact h

/-- Evaluation of Char.ofNat on valid code points. -/
theorem toNat_ofNat_valid (n : Nat) (h : Nat.isValidChar n) : (Char.ofNat n).toNat = n := by
  simp only [Char.ofNat, h, dif_pos, Char.ofNatAux, Char.toNat, UInt32.toNat]
  simp

/-- A character whose code is none of the whitespace codes is not whitespace. -/
theorem isPySpace_eq_false_of_toNat (c : Char) (hn : ¬ (c.toNat = 32 ∨ c.toNat = 9 ∨
    c.toNat = 10 ∨ c.toNat = 13 ∨ c.toNat = 11 ∨ c.toNat = 12)) : isPySpace c = false := by
  unfold isPySpace
  simp only [Bool.or_eq_false_iff, decide_eq_false_iff_not]
  push_neg at hn
  obtain ⟨h1, h2, h3, h4, h5, h6⟩ := hn
  refine ⟨⟨⟨⟨⟨?_, ?_⟩, ?_⟩, ?_⟩, ?_⟩, ?_⟩ <;> intro hh <;> subst hh <;> simp_all

/-- Lower-casing a character twice equals lower-casing it once. -/
theorem pyLowerChar_idem (c : Char) : pyLowerChar (pyLowerChar c) = pyLowerChar c := by
  unfold pyLowerChar
  by_cases h : 65 ≤ c.toNat ∧ c.toNat ≤ 90
  · have h2 : (Char.ofNat (c.toNat + 32)).toNat = c.toNat + 32 :=
      toNat_ofNat_valid _ (Or.inl (by omega))
    rw [if_pos h, if_neg]
    rw [h2]; omega
  · simp only [if_neg h]

/-- Lower-casing preserves whitespace-ness of a character. -/
theorem isPySpace_pyLowerChar (c : Char) : isPySpace (pyLowerChar c) = isPySpace c := by
  unfold pyLowerChar
  by_cases h : 65 ≤ c.toNat ∧ c.toNat ≤ 90
  · have h2 : (Char.ofNat (c.toNat + 32)).toNat = c.toNat + 32 :=
      toNat_ofNat_valid _ (Or.inl (by omega))
    rw [if_pos h]
    rw [isPySpace_eq_false_of_toNat _ (by rw [h2]; omega),
        isPySpace_eq_false_of_toNat _ (by omega)]
  · simp only [if_neg h]

/-- A list already stripped on the left stays stripped after stripping on the right. -/
theorem dropWhile_rdropWhile_fix (p : Char → Bool) (m : List Char)
    (hfix : m.dropWhile p = m) :
    (List.rdropWhile p m).dropWhile p = List.rdropWhile p m := by
  have hp := List.rdropWhile_prefix p m
  rcases hp with ⟨t, ht⟩
  cases h : List.rdropWhile p m with
  | nil => simp
  | cons y ys =>
    have hm : m = y :: (ys ++ t) := by rw [← ht, h]; simp
    have hy : ¬ p y = true := by
      intro hpy
      rw [hm, List.dropWhile_cons, if_pos hpy] at hfix
      have hsub : (List.dropWhile p (ys ++ t)).length ≤ (ys ++ t).length :=
        (List.dropWhile_sublist p).length_le
      have := congrArg List.length hfix
      rw [List.length_cons] at this
      omega
    simp [List.dropWhile_cons, hy]

/-- Stripping both ends is idempotent at the character-list level. -/
theorem stripL_idem (l : List Char) :
    List.rdropWhile isPySpace ((List.rdropWhile isPySpace (l.dropWhile isPySpace)).dropWhile isPySpace)
      = List.rdropWhile isPySpace (l.dropWhile isPySpace) := by
  rw [dropWhile_rdropWhile_fix _ _ (List.dropWhile_idempotent _ _)]
  exact List.rdropWhile_idempotent _ _

/-- pyStrip is idempotent. -/
theorem pyStrip_pyStrip (s : String) : pyStrip (pyStrip s) = pyStrip s := by
  unfold pyStrip
  exact congrArg String.mk (stripL_idem s.data)

/-- Composition form of character lower-casing idempotence. -/
theorem pyLowerChar_comp : (fun c => pyLowerChar (pyLowerChar c)) = pyLowerChar := by
  funext c; exact pyLowerChar_idem c

/-- Composition form of whitespace preservation under lower-casing. -/
theorem isPySpace_comp : isPySpace ∘ pyLowerChar = isPySpace := by
  funext c; exact isPySpace_pyLowerChar c

/-- pyLower is idempotent. -/
theorem pyLower_pyLower (s : String) : pyLower (pyLower s) = pyLower s := by
  unfold pyLower
  apply congrArg String.mk
  show (s.data.map pyLowerChar).map pyLowerChar = s.data.map pyLowerChar
  rw [List.map_map]
  show s.data.map (fun c => pyLowerChar (pyLowerChar c)) = _
  rw [pyLowerChar_comp]

/-- Right strip commutes with lower-casing at the character-list level. -/
theorem rdropWhile_map_lower (l : List Char) :
    List.rdropWhile isPySpace (l.map pyLowerChar)
      = (List.rdropWhile isPySpace l).map pyLowerChar := by
  simp only [List.rdropWhile, ← List.map_reverse, List.dropWhile_map, isPySpace_comp]

/-- pyStrip commutes with pyLower. -/
theorem pyStrip_pyLower (s : String) : pyStrip (pyLower s) = pyLower (pyStrip s) := by
  unfold pyStrip pyLower
  apply congrArg String.mk
  show List.rdropWhile isPySpace ((s.data.map pyLowerChar).dropWhile isPySpace) = _
  rw [List.dropWhile_map, isPySpace_comp, rdropWhile_map_lower]

/-- A normalized artist string is a fixed point of lower-casing. -/
theorem normalize_artist_lower (s : String) :
    pyLower (normalize_artist s) = normalize_artist s := by
  unfold normalize_artist
  by_cases h : s = ""
  · simp [h]; rfl
  · simp only [h, if_false]; exact pyLower_pyLower _

/-- A normalized artist string is a fixed point of stripping. -/
theorem normalize_artist_strip (s : String) :
    pyStrip (normalize_artist s) = normalize_artist s := by
  unfold normalize_artist
  by_cases h : s = ""
  · simp [h]; rfl
  · simp only [h, if_false]
    rw [pyStrip_pyLower, pyStrip_pyStrip]

/-- A normalized genre string is a fixed point of lower-casing. -/
theorem normalize_genre_lower (s : String) :
    pyLower (normalize_genre s) = normalize_genre s := by
  unfold normalize_genre
  rw [pyStrip_pyLower, pyLower_pyLower]

/-- A normalized genre string is a fixed point of stripping. -/
theorem normalize_genre_strip (s : String) :
    pyStrip (normalize_genre s) = normalize_genre s := by
  unfold normalize_genre
  exact pyStrip_pyStrip _

/-- A normalized title string is a fixed point of stripping. -/
theorem normalize_title_strip (s : String) :
    pyStrip (normalize_title s) = normalize_title s := pyStrip_pyStrip s

/-! Helper lemmas: association-list dictionaries. -/

/-- Cons step for pyGet. -/
theorem pyGet_cons {α : Type} (k' : String) (v : α) (d : List (String × α)) (k : String)
    (dflt : α) :
    pyGet ((k', v) :: d) k dflt = if k' == k then v else pyGet d k dflt := by
  unfold pyGet
  rw [List.find?_cons]
  by_cases h : k' == k
  · simp [h]
  · simp only [h]
    simp at h
    simp [h]

/-- Unfolding of hasKey on a cons cell. -/
theorem hasKey_cons {α : Type} (p : String × α) (d : List (String × α)) (k : String) :
    hasKey (p :: d) k = (p.1 == k || hasKey d k) := by
  simp [hasKey, List.any_cons]

/-- Lookup of a missing key gives the default. -/
theorem pyGet_of_hasKey_eq_false {α : Type} (d : List (String × α)) (k : String) (dflt : α)
    (h : hasKey d k = false) : pyGet d k dflt = dflt := by
  induction d with
  | nil => rfl
  | cons p d ih =>
    rw [hasKey_cons] at h
    simp only [Bool.or_eq_false_iff] at h
    rw [pyGet_cons, h.1]
    simp only [Bool.false_eq_true, if_false]
    exact ih h.2

/-- Lookup distributes over append: the left dict wins when it has the key. -/
theorem pyGet_append {α : Type} (d e : List (String × α)) (k : String) (dflt : α) :
    pyGet (d ++ e) k dflt = if hasKey d k then pyGet d k dflt else pyGet e k dflt := by
  induction d with
  | nil => simp [hasKey]
  | cons p d ih =>
    rw [List.cons_append, pyGet_cons, pyGet_cons, ih, hasKey_cons]
    by_cases h : p.1 == k
    · rw [h]; simp
    · have h' : (p.1 == k) = false := by simp_all
      rw [h']; simp

/-- A key different from the appended one keeps its lookup result. -/
theorem pyGet_append_single {α : Type} (d : List (String × α)) (k k' : String) (v dflt : α)
    (hne : k ≠ k') :
    pyGet (d ++ [(k, v)]) k' dflt = pyGet d k' dflt := by
  rw [pyGet_append]
  by_cases h : hasKey d k'
  · simp [h]
  · have h0 : hasKey d k' = false := by simp_all
    rw [h0]
    simp only [Bool.false_eq_true, if_false]
    rw [pyGet_cons]
    have hb : (k == k') = false := by simp [hne]
    rw [hb]
    simp only [Bool.false_eq_true, if_false]
    rw [pyGet_of_hasKey_eq_false d k' dflt h0]
    rfl

/-- Appending a pair for a missing key makes lookup return its value. -/
theorem pyGet_append_single_self {α : Type} (d : List (String × α)) (k : String) (v dflt : α)
    (h : hasKey d k = false) :
    pyGet (d ++ [(k, v)]) k dflt = v := by
  rw [pyGet_append, h]
  simp [pyGet_cons]

/-! Classification lemmas and claims. -/

/-- classify_song only consults the three recognized profile options. -/
theorem classify_song_congr (song : Song) (p q : Profile)
    (h1 : pyGet p "hype_min_energy" (.vint 7) = pyGet q "hype_min_energy" (.vint 7))
    (h2 : pyGet p "chill_max_energy" (.vint 3) = pyGet q "chill_max_energy" (.vint 3))
    (h3 : pyGet p "favorite_genre" (.vstr "") = pyGet q "favorite_genre" (.vstr "")) :
    classify_song song p = classify_song song q := by
  simp only [classify_song]
  rw [h1, h2, h3]

/-- C3: for songs and profiles with string genre and title and integer energy
    thresholds, classify_song returns Hype exactly on the Hype condition,
    Chill exactly on not-Hype and the Chill condition, and Mixed otherwise;
    in particular a song satisfying both conditions is classified Hype. -/
theorem classify_song_spec (song : Song) (profile : Profile)
    (g t : String) (en hm cm : Int)
    (hg : pyGet song "genre" (.vstr "") = .vstr g)
    (ht : pyGet song "title" (.vstr "") = .vstr t)
    (he : pyGet song "energy" (.vint 0) = .vint en)
    (hh : pyGet profile "hype_min_energy" (.vint 7) = .vint hm)
    (hc : pyGet profile "chill_max_energy" (.vint 3) = .vint cm) :
    (classify_song song profile = "Hype" ↔
      (PyVal.vstr g = pyGet profile "favorite_genre" (.vstr "") ∨ en ≥ hm ∨
        pyContains g "rock" = true ∨ pyContains g "punk" = true ∨
        pyContains g "party" = true))
    ∧ (classify_song song profile = "Chill" ↔
      (¬ (PyVal.vstr g = pyGet profile "favorite_genre" (.vstr "") ∨ en ≥ hm ∨
          pyContains g "rock" = true ∨ pyContains g "punk" = true ∨
          pyContains g "party" = true)
        ∧ (en ≤ cm ∨ pyContains t "lofi" = true ∨ pyContains t "ambient" = true ∨
          pyContains t "sleep" = true)))
    ∧ (classify_song song profile = "Mixed" ↔
      (¬ (PyVal.vstr g = pyGet profile "favorite_genre" (.vstr "") ∨ en ≥ hm ∨
          pyContains g "rock" = true ∨ pyContains g "punk" = true ∨
          pyContains g "party" = true)
        ∧ ¬ (en ≤ cm ∨ pyContains t "lofi" = true ∨ pyContains t "ambient" = true ∨
          pyContains t "sleep" = true))) := by
  simp only [classify_song]
  rw [hg, ht, he, hh, hc]
  simp only [pyIntVal, pyStrVal, List.any_cons, List.any_nil, Bool.or_false]
  by_cases hA : (pyEq (PyVal.vstr g) (pyGet profile "favorite_genre" (.vstr ""))
      || decide (en ≥ hm)
      || (pyContains g "rock" || (pyContains g "punk" || pyContains g "party"))) = true
  · have hA' : PyVal.vstr g = pyGet profile "favorite_genre" (.vstr "") ∨ en ≥ hm ∨
        pyContains g "rock" = true ∨ pyContains g "punk" = true ∨ pyContains g "party" = true := by
      simp only [Bool.or_eq_true, decide_eq_true_iff, pyEq_iff] at hA
      tauto
    rw [if_pos hA]
    refine ⟨by simp [hA'], by simp [hA'], by simp [hA']⟩
  · have hA' : ¬ (PyVal.vstr g = pyGet profile "favorite_genre" (.vstr "") ∨ en ≥ hm ∨
        pyContains g "rock" = true ∨ pyContains g "punk" = true ∨ pyContains g "party" = true) := by
      simp only [Bool.or_eq_true, decide_eq_true_iff, pyEq_iff] at hA
      tauto
    rw [if_neg hA]
    by_cases hB : (decide (en ≤ cm)
        || (pyContains t "lofi" || (pyContains t "ambient" || pyContains t "sleep"))) = true
    · have hB' : en ≤ cm ∨ pyContains t "lofi" = true ∨ pyContains t "ambient" = true ∨
          pyContains t "sleep" = true := by
        simp only [Bool.or_eq_true, decide_eq_true_iff] at hB
        tauto
      rw [if_pos hB]
      refine ⟨by simp [hA'], by simp [hA', hB'], by simp [hB']⟩
    · have hB' : ¬ (en ≤ cm ∨ pyContains t "lofi" = true ∨ pyContains t "ambient" = true ∨
          pyContains t "sleep" = true) := by
        simp only [Bool.or_eq_true, decide_eq_true_iff] at hB
        tauto
      rw [if_neg hB]
      refine ⟨by simp [hA'], by simp [hB'], by simp [hA', hB']⟩

/-- Witness for C3 at a concrete input: genre rock and energy 1 satisfies a
    Hype keyword and the Chill energy bound, and is classified Hype. -/
theorem classify_song_spec_witness :
    classify_song
      [("genre", .vstr "rock"), ("title", .vstr "quiet"), ("energy", .vint 1)]
      [("hype_min_energy", .vint 7), ("chill_max_energy", .vint 3)] = "Hype" :=
  (classify_song_spec
    [("genre", .vstr "rock"), ("title", .vstr "quiet"), ("energy", .vint 1)]
    [("hype_min_energy", .vint 7), ("chill_max_energy", .vint 3)]
    "rock" "quiet" 1 7 3 rfl rfl rfl rfl rfl).1.mpr
    (Or.inr (Or.inr (Or.inl (by decide))))

/-- C5: classify_song treats a profile missing one of the recognized options
    exactly as if it carried the default: hype_min_energy 7, chill_max_energy
    3, favorite_genre the empty string. -/
theorem classify_song_defaults (song : Song) (profile : Profile) :
    (hasKey profile "hype_min_energy" = false →
      classify_song song profile
        = classify_song song (profile ++ [("hype_min_energy", PyVal.vint 7)]))
    ∧ (hasKey profile "chill_max_energy" = false →
      classify_song song profile
        = classify_song song (profile ++ [("chill_max_energy", PyVal.vint 3)]))
    ∧ (hasKey profile "favorite_genre" = false →
      classify_song song profile
        = classify_song song (profile ++ [("favorite_genre", PyVal.vstr "")])) := by
  refine ⟨fun h => ?_, fun h => ?_, fun h => ?_⟩
  · apply classify_song_congr
    · rw [pyGet_of_hasKey_eq_false _ _ _ h, pyGet_append_single_self _ _ _ _ h]
    · rw [pyGet_append_single _ _ _ _ _ (by decide)]
    · rw [pyGet_append_single _ _ _ _ _ (by decide)]
  · apply classify_song_congr
    · rw [pyGet_append_single _ _ _ _ _ (by decide)]
    · rw [pyGet_of_hasKey_eq_false _ _ _ h, pyGet_append_single_self _ _ _ _ h]
    · rw [pyGet_append_single _ _ _ _ _ (by decide)]
  · apply classify_song_congr
    · rw [pyGet_append_single _ _ _ _ _ (by decide)]
    · rw [pyGet_append_single _ _ _ _ _ (by decide)]
    · rw [pyGet_of_hasKey_eq_false _ _ _ h, pyGet_append_single_self _ _ _ _ h]

/-- Witness for C5: with an empty profile, classifying a concrete song agrees
    with classifying under each explicitly defaulted profile. -/
theorem classify_song_defaults_witness :
    (classify_song [("energy", .vint 5)] []
      = classify_song [("energy", .vint 5)] [("hype_min_energy", PyVal.vint 7)])
    ∧ (classify_song [("energy", .vint 5)] []
      = classify_song [("energy", .vint 5)] [("chill_max_energy", PyVal.vint 3)])
    ∧ (classify_song [("energy", .vint 5)] []
      = classify_song [("energy", .vint 5)] [("favorite_genre", PyVal.vstr "")]) :=
  ⟨(classify_song_defaults [("energy", .vint 5)] []).1 rfl,
   (classify_song_defaults [("energy", .vint 5)] []).2.1 rfl,
   (classify_song_defaults [("energy", .vint 5)] []).2.2 rfl⟩

/-- C10: a song whose genre is the empty string is classified Hype under any
    profile without a favorite_genre key, since the empty genre equals the
    fallback favorite_genre, whatever the song's energy. -/
theorem classify_song_empty_genre (song : Song) (profile : Profile)
    (hg : pyGet song "genre" (.vstr "") = .vstr "")
    (hf : hasKey profile "favorite_genre" = false) :
    classify_song song profile = "Hype" := by
  simp only [classify_song]
  rw [hg, pyGet_of_hasKey_eq_false _ _ _ hf]
  simp [pyEq]

/-- Witness for C10: a concrete empty-genre, low-energy song under a profile
    with no favorite_genre is classified Hype. -/
theorem classify_song_empty_genre_witness :
    classify_song [("genre", .vstr ""), ("energy", .vint 1)]
      [("hype_min_energy", .vint 7)] = "Hype" :=
  classify_song_empty_genre [("genre", .vstr ""), ("energy", .vint 1)]
    [("hype_min_energy", .vint 7)] rfl rfl

/-! Normalization claims. -/

/-- Evaluation of the energy field of a normalized song. -/
theorem normalize_song_energy (raw : Song) :
    pyGet (normalize_song raw) "energy" (.vint 0)
      = match pyGet raw "energy" (.vint 0) with
        | .vstr s =>
          match pyIntParse s with
          | some n => PyVal.vint n
          | none => PyVal.vint 0
        | v => v := rfl

/-- Evaluation of the title field of a normalized song. -/
theorem normalize_song_title (raw : Song) (dflt : PyVal) :
    pyGet (normalize_song raw) "title" dflt
      = .vstr (normalize_title (pyStr (pyGet raw "title" (.vstr "")))) := rfl

/-- Evaluation of the artist field of a normalized song. -/
theorem normalize_song_artist (raw : Song) (dflt : PyVal) :
    pyGet (normalize_song raw) "artist" dflt
      = .vstr (normalize_artist (pyStr (pyGet raw "artist" (.vstr "")))) := rfl

/-- Evaluation of the genre field of a normalized song. -/
theorem normalize_song_genre (raw : Song) (dflt : PyVal) :
    pyGet (normalize_song raw) "genre" dflt
      = .vstr (normalize_genre (pyStr (pyGet raw "genre" (.vstr "")))) := rfl

/-- C4 (amended): after normalization the energy field is never a raw string:
    a missing energy yields 0, a string energy yields its parse with 0 on
    unparseable text, and any other value passes through unchanged; the artist
    and genre fields are lower-cased trimmed strings; the title field is the
    stringified raw title trimmed, case preserved. -/
theorem normalize_song_spec (raw : Song) :
    (hasKey raw "energy" = false →
      pyGet (normalize_song raw) "energy" (.vint 0) = .vint 0)
    ∧ (∀ s : String, pyGet raw "energy" (.vint 0) = .vstr s →
      pyGet (normalize_song raw) "energy" (.vint 0) = .vint ((pyIntParse s).getD 0))
    ∧ (∀ v : PyVal, pyGet raw "energy" (.vint 0) = v → isStrVal v = false →
      pyGet (normalize_song raw) "energy" (.vint 0) = v)
    ∧ (∀ s : String, pyGet (normalize_song raw) "energy" (.vint 0) ≠ .vstr s)
    ∧ (∃ a : String, pyGet (normalize_song raw) "artist" (.vstr "?") = .vstr a ∧
        pyLower a = a ∧ pyStrip a = a)
    ∧ (∃ g : String, pyGet (normalize_song raw) "genre" (.vstr "?") = .vstr g ∧
        pyLower g = g ∧ pyStrip g = g)
    ∧ (∃ t : String, pyGet (normalize_song raw) "title" (.vstr "?") = .vstr t ∧
        pyStrip t = t ∧ t = pyStrip (pyStr (pyGet raw "title" (.vstr "")))) := by
  refine ⟨?_, ?_, ?_, ?_, ?_, ?_, ?_⟩
  · intro h
    rw [normalize_song_energy, pyGet_of_hasKey_eq_false _ _ _ h]
  · intro s hs
    rw [normalize_song_energy, hs]
    cases hp : pyIntParse s <;> simp [hp, Option.getD]
  · intro v hv hstr
    rw [normalize_song_energy, hv]
    cases v with
    | vstr s => simp [isStrVal] at hstr
    | vint n => rfl
    | vnone => rfl
    | vlist xs => rfl
  · intro s
    rw [normalize_song_energy]
    cases hv : pyGet raw "energy" (.vint 0) with
    | vstr u => cases hp : pyIntParse u <;> simp [hp]
    | vint n => simp
    | vnone => simp
    | vlist xs => simp
  · exact ⟨_, normalize_song_artist raw _, normalize_artist_lower _, normalize_artist_strip _⟩
  · exact ⟨_, normalize_song_genre raw _, normalize_genre_lower _, normalize_genre_strip _⟩
  · exact ⟨_, normalize_song_title raw _, normalize_title_strip _, rfl⟩

/-- Witness for C4 (amended) at concrete inputs: a parseable string energy
    becomes the parsed integer and a messy artist is trimmed and lower-cased. -/
theorem normalize_song_spec_witness :
    pyGet (normalize_song [("energy", .vstr "12"), ("artist", .vstr " The CROWS ")])
      "energy" (.vint 0) = .vint 12
    ∧ pyGet (normalize_song [("energy", .vstr "bang"), ("artist", .vstr " The CROWS ")])
      "energy" (.vint 0) = .vint 0
    ∧ pyGet (normalize_song [("energy", .vnone)]) "energy" (.vint 0) = .vnone
    ∧ pyGet (normalize_song []) "energy" (.vint 0) = .vint 0 :=
  ⟨(normalize_song_spec [("energy", .vstr "12"), ("artist", .vstr " The CROWS ")]).2.1
      "12" rfl,
   (normalize_song_spec [("energy", .vstr "bang"), ("artist", .vstr " The CROWS ")]).2.1
      "bang" rfl,
   (normalize_song_spec [("energy", .vnone)]).2.2.1 .vnone rfl rfl,
   (normalize_song_spec []).1 rfl⟩

/-- Counterexample for C4 as stated: normalizing a song whose energy is None
    leaves the energy field as None, which is not an integer value. -/
theorem normalize_song_energy_not_always_int :
    pyGet (normalize_song [("energy", PyVal.vnone)]) "energy" (.vint 0) = PyVal.vnone
    ∧ isIntVal PyVal.vnone = false :=
  ⟨rfl, rfl⟩

/-! Statistics claims. -/

/-- C1: when every Hype song has an integer energy, avg_energy is the sum of
    the Hype energies divided by the total number of songs across all
    sequences (not by hype_count), and 0 when the flattened list is empty. -/
theorem avg_energy_spec (pl : PlaylistMap) (es : List Int)
    (h : (pyGet pl "Hype" []).map (fun s => pyGet s "energy" (PyVal.vint 0))
      = es.map PyVal.vint) :
    (compute_playlist_stats pl).total_songs = (allSongs pl).length
    ∧ (compute_playlist_stats pl).avg_energy =
      (if (allSongs pl).length = 0 then 0
       else ((es.sum : Int) : ℚ) / ((allSongs pl).length : ℚ)) := by
  constructor
  · rfl
  · have hnum : (pyGet pl "Hype" []).map (fun s => pyIntVal (pyGet s "energy" (.vint 0)))
        = es := by
      have h2 := congrArg (List.map pyIntVal) h
      rw [List.map_map, List.map_map] at h2
      have h3 : pyIntVal ∘ PyVal.vint = id := by funext n; rfl
      rw [h3, List.map_id] at h2
      exact h2
    simp only [compute_playlist_stats]
    rw [hnum]
    by_cases he : (allSongs pl).isEmpty
    · rw [if_pos he, if_pos]
      rw [List.isEmpty_iff_length_eq_zero] at he
      exact he
    · rw [if_neg he, if_neg]
      rw [List.isEmpty_iff_length_eq_zero] at he
      exact he

/-- Witness for C1 at the spec scenario: one Hype song of energy 9 and one
    Chill song give an average of 9 over 2. -/
theorem avg_energy_spec_witness :
    (compute_playlist_stats
      [("Hype", [[("energy", PyVal.vint 9)]]), ("Chill", [[("energy", PyVal.vint 1)]]),
       ("Mixed", [])]).avg_energy = (9 : ℚ) / 2 := by
  have h := (avg_energy_spec
    [("Hype", [[("energy", PyVal.vint 9)]]), ("Chill", [[("energy", PyVal.vint 1)]]),
     ("Mixed", [])] [9] rfl).2
  rw [h]
  norm_num [allSongs]

/-! Merge claims. -/

/-- Key membership survives firstDedup. -/
theorem mem_firstDedup (xs : List String) (k : String) :
    k ∈ firstDedup xs ↔ k ∈ xs := by
  induction xs with
  | nil => simp [firstDedup]
  | cons x xs ih =>
    simp only [firstDedup, List.mem_cons, List.mem_filter, ih, bne_iff_ne]
    constructor
    · rintro (rfl | ⟨hk, _⟩)
      · exact Or.inl rfl
      · exact Or.inr hk
    · rintro (rfl | hk)
      · exact Or.inl rfl
      · by_cases hx : k = x
        · exact Or.inl hx
        · exact Or.inr ⟨hk, hx⟩

/-- Lookup in a dict built by mapping a value function over a key list. -/
theorem lookupKey_map_keys {α : Type} (l : List String) (f : String → α) (k : String) :
    lookupKey (l.map (fun kk => (kk, f kk))) k
      = if k ∈ l then some (f k) else none := by
  induction l with
  | nil => simp [lookupKey]
  | cons x l ih =>
    simp only [List.map_cons, lookupKey, List.find?_cons]
    by_cases hx : x == k
    · have hk : x = k := by simpa using hx
      subst hk
      simp [hx]
    · have hne : ¬ x = k := by simpa using hx
      have hne2 : ¬ k = x := fun hh => hne hh.symm
      simp only [hx]
      simp only [List.mem_cons, hne2, false_or]
      exact ih

/-- pyGet is the default-completion of lookupKey. -/
theorem pyGet_eq_lookupKey_getD {α : Type} (d : List (String × α)) (k : String) (dflt : α) :
    pyGet d k dflt = (lookupKey d k).getD dflt := by
  unfold pyGet lookupKey
  cases h : d.find? (fun p => p.1 == k) <;> rfl

/-- hasKey tests membership of the key list. -/
theorem hasKey_iff_mem {α : Type} (d : List (String × α)) (k : String) :
    hasKey d k = true ↔ k ∈ d.map (fun p => p.1) := by
  simp [hasKey, List.any_eq_true, List.mem_map]

/-- C2: the key set of merge_playlists is the union of the two key sets and
    every key is bound to a's sequence followed by b's sequence, the empty
    sequence standing in for a missing key; in particular the Hype sequence
    of the merge is a's Hype sequence followed by b's. -/
theorem merge_playlists_spec (a b : PlaylistMap) (k : String) :
    (lookupKey (merge_playlists a b) k
      = if k ∈ a.map (fun p => p.1) ∨ k ∈ b.map (fun p => p.1)
        then some (pyGet a k [] ++ pyGet b k []) else none)
    ∧ pyGet (merge_playlists a b) k [] = pyGet a k [] ++ pyGet b k []
    ∧ pyGet (merge_playlists a b) "Hype" [] = pyGet a "Hype" [] ++ pyGet b "Hype" [] := by
  have key : ∀ k' : String, lookupKey (merge_playlists a b) k'
      = if k' ∈ a.map (fun p => p.1) ∨ k' ∈ b.map (fun p => p.1)
        then some (pyGet a k' [] ++ pyGet b k' []) else none := by
    intro k'
    have h1 := lookupKey_map_keys
      (firstDedup (a.map (fun p => p.1) ++ b.map (fun p => p.1)))
      (fun kk => pyGet a kk [] ++ pyGet b kk []) k'
    simp only [mem_firstDedup, List.mem_append] at h1
    exact h1
  have val : ∀ k' : String, pyGet (merge_playlists a b) k' []
      = pyGet a k' [] ++ pyGet b k' [] := by
    intro k'
    rw [pyGet_eq_lookupKey_getD, key k']
    by_cases hm : k' ∈ a.map (fun p => p.1) ∨ k' ∈ b.map (fun p => p.1)
    · rw [if_pos hm]; rfl
    · rw [if_neg hm]
      push_neg at hm
      have ha : hasKey a k' = false := by
        rw [← Bool.not_eq_true, hasKey_iff_mem]; exact hm.1
      have hb : hasKey b k' = false := by
        rw [← Bool.not_eq_true, hasKey_iff_mem]; exact hm.2
      rw [pyGet_of_hasKey_eq_false _ _ _ ha, pyGet_of_hasKey_eq_false _ _ _ hb]
      rfl
  exact ⟨key k, val k, val "Hype"⟩

/-! Playlist building claims. -/

/-- classify_song always returns one of the three mood labels. -/
theorem classify_song_cases (s : Song) (p : Profile) :
    classify_song s p = "Hype" ∨ classify_song s p = "Chill" ∨
      classify_song s p = "Mixed" := by
  simp only [classify_song]
  split
  · exact Or.inl rfl
  · split
    · exact Or.inr (Or.inl rfl)
    · exact Or.inr (Or.inr rfl)

/-- Unfolding of the build fold over an explicit three-key accumulator. -/
theorem build_foldl (profile : Profile) (songs : List Song) (h c m : List Song) :
    songs.foldl (buildStep profile) [("Hype", h), ("Chill", c), ("Mixed", m)]
      = [("Hype", h ++ (songs.filter
            (fun s => classify_song (normalize_song s) profile == "Hype")).map
            (processSong profile)),
         ("Chill", c ++ (songs.filter
            (fun s => classify_song (normalize_song s) profile == "Chill")).map
            (processSong profile)),
         ("Mixed", m ++ (songs.filter
            (fun s => classify_song (normalize_song s) profile == "Mixed")).map
            (processSong profile))] := by
  induction songs generalizing h c m with
  | nil => simp
  | cons s ss ih =>
    rw [List.foldl_cons]
    rcases classify_song_cases (normalize_song s) profile with hm | hm | hm
    · have hstep : buildStep profile [("Hype", h), ("Chill", c), ("Mixed", m)] s
          = [("Hype", h ++ [processSong profile s]), ("Chill", c), ("Mixed", m)] := by
        unfold buildStep appendSong
        rw [hm]
        rfl
      rw [hstep, ih]
      simp [List.filter_cons, hm, List.append_assoc]
    · have hstep : buildStep profile [("Hype", h), ("Chill", c), ("Mixed", m)] s
          = [("Hype", h), ("Chill", c ++ [processSong profile s]), ("Mixed", m)] := by
        unfold buildStep appendSong
        rw [hm]
        rfl
      rw [hstep, ih]
      simp [List.filter_cons, hm, List.append_assoc]
    · have hstep : buildStep profile [("Hype", h), ("Chill", c), ("Mixed", m)] s
          = [("Hype", h), ("Chill", c), ("Mixed", m ++ [processSong profile s])] := by
        unfold buildStep appendSong
        rw [hm]
        rfl
      rw [hstep, ih]
      simp [List.filter_cons, hm, List.append_assoc]

/-- C6: build_playlists returns exactly the three mood keys, each bound to
    the input songs with that classification, in input order, normalized and
    tagged with their mood; the empty input yields three empty sequences. -/
theorem build_playlists_spec (songs : List Song) (profile : Profile) :
    build_playlists songs profile
      = [("Hype", (songs.filter
            (fun s => classify_song (normalize_song s) profile == "Hype")).map
            (processSong profile)),
         ("Chill", (songs.filter
            (fun s => classify_song (normalize_song s) profile == "Chill")).map
            (processSong profile)),
         ("Mixed", (songs.filter
            (fun s => classify_song (normalize_song s) profile == "Mixed")).map
            (processSong profile))]
    ∧ build_playlists [] profile = [("Hype", []), ("Chill", []), ("Mixed", [])] := by
  constructor
  · have h := build_foldl profile songs [] [] []
    simpa [build_playlists] using h
  · rfl

/-! Random pick claims. -/

/-- lucky_pick draws from the pool selected by its mode string. -/
theorem lucky_pick_pool (r : Nat) (pl : PlaylistMap) (mode : String) :
    lucky_pick r pl mode = random_choice_or_none r (luckyPool pl mode) := by
  simp only [lucky_pick, luckyPool]
  by_cases h1 : mode = "hype"
  · subst h1; rfl
  · by_cases h2 : mode = "chill"
    · subst h2; rfl
    · by_cases h3 : mode = "any"
      · subst h3; rfl
      · have e1 : ("hype" == mode) = false := by
          rw [beq_eq_false_iff_ne]; exact fun hh => h1 hh.symm
        have e2 : ("chill" == mode) = false := by
          rw [beq_eq_false_iff_ne]; exact fun hh => h2 hh.symm
        have e3 : ("any" == mode) = false := by
          rw [beq_eq_false_iff_ne]; exact fun hh => h3 hh.symm
        rw [if_neg h1, if_neg h2, if_neg h3]
        rw [pyGet_cons, pyGet_cons, pyGet_cons]
        rw [e1, e2, e3]
        rfl

/-- random_choice_or_none returns none exactly on the empty list and
    otherwise some element of the list, whatever the oracle. -/
theorem random_choice_or_none_spec (r : Nat) (l : List Song) :
    (random_choice_or_none r l = none ↔ l = [])
    ∧ (∀ s, random_choice_or_none r l = some s → s ∈ l) := by
  unfold random_choice_or_none
  by_cases h : l.isEmpty
  · have hnil : l = [] := by simpa using h
    subst hnil
    simp
  · rw [if_neg h]
    have hne : l ≠ [] := by simpa using h
    have hlt : r % l.length < l.length :=
      Nat.mod_lt _ (List.length_pos.mpr hne)
    constructor
    · constructor
      · intro hnone
        rw [List.get?_eq_none] at hnone
        omega
      · intro hl; exact absurd hl hne
    · intro s hs
      exact List.get?_mem hs

/-- C8: for every playlist map, mode and oracle, lucky_pick yields the absent
    result exactly when the mode's pool (Hype for hype, Chill for chill, Hype
    then Chill for any, empty otherwise) is empty, otherwise some member of
    that pool; in particular on the empty map with mode hype it is absent. -/
theorem lucky_pick_spec (pl : PlaylistMap) (mode : String) (r : Nat) :
    (lucky_pick r pl mode = none ↔ luckyPool pl mode = [])
    ∧ (∀ s, lucky_pick r pl mode = some s → s ∈ luckyPool pl mode)
    ∧ lucky_pick r ([] : PlaylistMap) "hype" = none := by
  rw [lucky_pick_pool]
  refine ⟨(random_choice_or_none_spec r (luckyPool pl mode)).1,
    (random_choice_or_none_spec r (luckyPool pl mode)).2, rfl⟩

/-- Witness for C8: on a one-song Hype map the pick lands in the Hype pool,
    and on the empty map with mode hype it is absent. -/
theorem lucky_pick_spec_witness :
    [("title", PyVal.vstr "x")]
      ∈ luckyPool [("Hype", [[("title", PyVal.vstr "x")]])] "hype"
    ∧ lucky_pick 0 ([] : PlaylistMap) "hype" = none :=
  ⟨(lucky_pick_spec [("Hype", [[("title", PyVal.vstr "x")]])] "hype" 0).2.1
      [("title", PyVal.vstr "x")] rfl,
   (lucky_pick_spec [] "hype" 0).2.2⟩

/-! History summary claims. -/

/-- Cons step for moodGet. -/
theorem moodGet_cons (p : PyVal × Nat) (l : List (PyVal × Nat)) (m : PyVal) (d : Nat) :
    moodGet (p :: l) m d = if pyEq p.1 m then p.2 else moodGet l m d := by
  unfold moodGet
  rw [List.find?_cons]
  cases h : pyEq p.1 m <;> simp [h]

/-- Cons step for moodHasKey. -/
theorem moodHasKey_cons (p : PyVal × Nat) (l : List (PyVal × Nat)) (k : PyVal) :
    moodHasKey (p :: l) k = (pyEq p.1 k || moodHasKey l k) := by
  simp [moodHasKey, List.any_cons]

/-- Updating an existing key stores the new value under it. -/
theorem moodGet_map_update_self (l : List (PyVal × Nat)) (k : PyVal) (v : Nat)
    (hhk : moodHasKey l k = true) :
    moodGet (l.map (fun p => if pyEq p.1 k then (p.1, v) else p)) k 0 = v := by
  induction l with
  | nil => simp [moodHasKey] at hhk
  | cons p l ih =>
    rw [moodHasKey_cons] at hhk
    cases h : pyEq p.1 k with
    | true =>
      rw [List.map_cons, if_pos h, moodGet_cons]
      simp [h]
    | false =>
      rw [List.map_cons, if_neg (by simp [h]), moodGet_cons, if_neg (by simp [h])]
      rw [h] at hhk
      simp only [Bool.false_or] at hhk
      exact ih hhk

/-- Updating key k does not change the count of a different key. -/
theorem moodGet_map_update_other (l : List (PyVal × Nat)) (k : PyVal) (v : Nat) (m : PyVal)
    (hmk : pyEq m k = false) :
    moodGet (l.map (fun p => if pyEq p.1 k then (p.1, v) else p)) m 0 = moodGet l m 0 := by
  induction l with
  | nil => rfl
  | cons p l ih =>
    cases h : pyEq p.1 k with
    | true =>
      have hpk : p.1 = k := (pyEq_iff p.1 k).mp h
      have hpm : pyEq p.1 m = false := by
        rw [hpk]
        exact pyEq_symm_false m k hmk
      rw [List.map_cons, if_pos h, moodGet_cons, moodGet_cons]
      simp only [hpm, Bool.false_eq_true, if_false]
      exact ih
    | false =>
      rw [List.map_cons, if_neg (by simp [h]), moodGet_cons, moodGet_cons]
      cases hpm : pyEq p.1 m <;> simp [hpm, ih]

/-- Appending a fresh key stores its value. -/
theorem moodGet_append_fresh_self (l : List (PyVal × Nat)) (k : PyVal) (v : Nat)
    (hhk : moodHasKey l k = false) :
    moodGet (l ++ [(k, v)]) k 0 = v := by
  induction l with
  | nil => simp [moodGet_cons, (pyEq_iff k k).mpr rfl]
  | cons p l ih =>
    rw [moodHasKey_cons] at hhk
    simp only [Bool.or_eq_false_iff] at hhk
    rw [List.cons_append, moodGet_cons]
    simp only [hhk.1, Bool.false_eq_true, if_false]
    exact ih hhk.2

/-- Appending a fresh key does not change other lookups. -/
theorem moodGet_append_fresh_other (l : List (PyVal × Nat)) (k : PyVal) (v : Nat) (m : PyVal)
    (hmk : pyEq m k = false) :
    moodGet (l ++ [(k, v)]) m 0 = moodGet l m 0 := by
  induction l with
  | nil =>
    rw [List.nil_append, moodGet_cons]
    simp only [pyEq_symm_false m k hmk, Bool.false_eq_true, if_false]
  | cons p l ih =>
    rw [List.cons_append, moodGet_cons, moodGet_cons]
    cases hpm : pyEq p.1 m <;> simp [hpm, ih]

/-- The dict-assignment lemma: after counts[k] = v, looking up m gives v when
    m equals k and the old result otherwise. -/
theorem moodGet_moodSet (l : List (PyVal × Nat)) (k : PyVal) (v : Nat) (m : PyVal) :
    moodGet (moodSet l k v) m 0 = if pyEq m k then v else moodGet l m 0 := by
  unfold moodSet
  cases hmk : pyEq m k with
  | true =>
    have : m = k := (pyEq_iff m k).mp hmk
    subst this
    by_cases hhk : moodHasKey l m
    · rw [if_pos hhk]
      simp [moodGet_map_update_self l m v hhk]
    · rw [if_neg hhk]
      simp only [if_true]
      have h0 : moodHasKey l m = false := by simpa using hhk
      simp [moodGet_append_fresh_self l m v h0]
  | false =>
    by_cases hhk : moodHasKey l k
    · rw [if_pos hhk]
      simp [hmk, moodGet_map_update_other l k v m hmk]
    · rw [if_neg hhk]
      simp [hmk, moodGet_append_fresh_other l k v m hmk]

/-- moodSet never removes a key. -/
theorem moodHasKey_moodSet (l : List (PyVal × Nat)) (k0 : PyVal) (v : Nat) (k : PyVal)
    (h : moodHasKey l k = true) :
    moodHasKey (moodSet l k0 v) k = true := by
  unfold moodSet
  by_cases hhk : moodHasKey l k0
  · rw [if_pos hhk]
    have hkeys : (fun p : PyVal × Nat => pyEq (if pyEq p.1 k0 then (p.1, v) else p).1 k)
        = (fun p : PyVal × Nat => pyEq p.1 k) := by
      funext p
      cases hc : pyEq p.1 k0 <;> simp [hc]
    unfold moodHasKey at h ⊢
    rw [List.any_map]
    show (l.any (fun p => pyEq (if pyEq p.1 k0 then (p.1, v) else p).1 k)) = true
    rw [hkeys]
    exact h
  · rw [if_neg hhk]
    unfold moodHasKey at h ⊢
    rw [List.any_append, h]
    rfl

/-- Count accumulation over the history fold, for any starting counts. -/
theorem history_foldl_count (history : List Song) (init : List (PyVal × Nat)) (m : PyVal) :
    moodGet (history.foldl historyStep init) m 0
      = moodGet init m 0 + (history.map moodOf).countP (fun x => pyEq x m) := by
  induction history generalizing init with
  | nil => simp
  | cons s hist ih =>
    rw [List.foldl_cons, ih, List.map_cons, List.countP_cons]
    unfold historyStep
    rw [moodGet_moodSet]
    cases hms : pyEq m (moodOf s) with
    | true =>
      have hmm : m = moodOf s := (pyEq_iff m (moodOf s)).mp hms
      subst hmm
      rw [if_pos hms]
      simp [hms]
      omega
    | false =>
      have hsm : pyEq (moodOf s) m = false := pyEq_symm_false m (moodOf s) hms
      simp [hms, hsm]

/-- Preset keys survive the whole history fold. -/
theorem moodHasKey_history_foldl (history : List Song) (init : List (PyVal × Nat))
    (k : PyVal) (h : moodHasKey init k = true) :
    moodHasKey (history.foldl historyStep init) k = true := by
  induction history generalizing init with
  | nil => exact h
  | cons s hist ih =>
    rw [List.foldl_cons]
    exact ih _ (moodHasKey_moodSet _ _ _ _ h)

/-- The initial preset counter maps every key to 0. -/
theorem moodGet_init_zero (m : PyVal) :
    moodGet [(PyVal.vstr "Hype", 0), (PyVal.vstr "Chill", 0), (PyVal.vstr "Mixed", 0)] m 0
      = 0 := by
  rw [moodGet_cons, moodGet_cons, moodGet_cons]
  cases pyEq (PyVal.vstr "Hype") m <;> cases pyEq (PyVal.vstr "Chill") m <;>
    cases pyEq (PyVal.vstr "Mixed") m <;> simp [moodGet]

/-- C9: history_summary counts songs by mood with Mixed as the default for a
    missing mood field, tallies arbitrary labels under themselves, always
    carries the three preset keys, and on the spec example returns Hype 2,
    Chill 0, Mixed 1. -/
theorem history_summary_spec (history : List Song) (m : PyVal) :
    moodGet (history_summary history) m 0
      = (history.map moodOf).countP (fun x => pyEq x m)
    ∧ moodHasKey (history_summary history) (.vstr "Hype") = true
    ∧ moodHasKey (history_summary history) (.vstr "Chill") = true
    ∧ moodHasKey (history_summary history) (.vstr "Mixed") = true
    ∧ history_summary [[("mood", .vstr "Hype")], [("mood", .vstr "Hype")], []]
      = [(.vstr "Hype", 2), (.vstr "Chill", 0), (.vstr "Mixed", 1)] := by
  refine ⟨?_, ?_, ?_, ?_, rfl⟩
  · unfold history_summary
    rw [history_foldl_count, moodGet_init_zero, Nat.zero_add]
  · exact moodHasKey_history_foldl _ _ _ rfl
  · exact moodHasKey_history_foldl _ _ _ rfl
  · exact moodHasKey_history_foldl _ _ _ rfl

/-! Top artist claims. -/

/-- Unfolding of firstMax over a cons cell. -/
theorem firstMax_cons (e q : String × Nat) (l : List (String × Nat)) :
    firstMax e (q :: l) = firstMax (if e.2 < q.2 then q else e) l := rfl

/-- Every count in the scanned list is at most the selected count. -/
theorem firstMax_ge (l : List (String × Nat)) (e : String × Nat) :
    ∀ p ∈ e :: l, p.2 ≤ (firstMax e l).2 := by
  induction l generalizing e with
  | nil =>
    intro p hp
    rw [List.mem_singleton] at hp
    subst hp
    exact Nat.le_refl _
  | cons q l ih =>
    intro p hp
    rw [firstMax_cons]
    have step : e.2 ≤ (if e.2 < q.2 then q else e).2 ∧ q.2 ≤ (if e.2 < q.2 then q else e).2 := by
      by_cases h : e.2 < q.2 <;> simp [h] <;> omega
    rcases List.mem_cons.mp hp with rfl | hp2
    · exact Nat.le_trans step.1 (ih _ _ (List.mem_cons_self _ _))
    · rcases List.mem_cons.mp hp2 with rfl | hp3
      · exact Nat.le_trans step.2 (ih _ _ (List.mem_cons_self _ _))
      · exact ih _ _ (List.mem_cons_of_mem _ hp3)

/-- The selected entry is the first of maximal count: the scanned list splits
    around it with every earlier entry of strictly smaller count. -/
theorem firstMax_split (l : List (String × Nat)) (e : String × Nat) :
    ∃ l₁ l₂, e :: l = l₁ ++ firstMax e l :: l₂
      ∧ ∀ p ∈ l₁, p.2 < (firstMax e l).2 := by
  induction l generalizing e with
  | nil => exact ⟨[], [], rfl, by simp⟩
  | cons q l ih =>
    rw [firstMax_cons]
    by_cases h : e.2 < q.2
    · rw [if_pos h]
      obtain ⟨l₁, l₂, hsplit, hlt⟩ := ih q
      refine ⟨e :: l₁, l₂, by rw [List.cons_append, ← hsplit], ?_⟩
      intro p hp
      rcases List.mem_cons.mp hp with rfl | hp2
      · exact Nat.lt_of_lt_of_le h (firstMax_ge l q _ (List.mem_cons_self _ _))
      · exact hlt p hp2
    · rw [if_neg h]
      obtain ⟨l₁, l₂, hsplit, hlt⟩ := ih e
      cases l₁ with
      | nil =>
        simp only [List.nil_append] at hsplit
        have he : firstMax e l = e := ((List.cons.injEq _ _ _ _).mp hsplit).1.symm
        have hl : l = l₂ := ((List.cons.injEq _ _ _ _).mp hsplit).2
        exact ⟨[], q :: l, by rw [List.nil_append, he, hl], by simp⟩
      | cons a l₁ =>
        rw [List.cons_append] at hsplit
        have ha : e = a := ((List.cons.injEq _ _ _ _).mp hsplit).1
        have hl : l = l₁ ++ firstMax e l :: l₂ := ((List.cons.injEq _ _ _ _).mp hsplit).2
        have he2 : e.2 < (firstMax e l).2 := by
          have hm := hlt a (List.mem_cons_self _ _)
          rw [← ha] at hm
          exact hm
        refine ⟨e :: q :: l₁, l₂, ?_, ?_⟩
        · rw [List.cons_append, List.cons_append, ← hl]
        · intro p hp
          rcases List.mem_cons.mp hp with hpe | hp2
          · rw [hpe]; exact he2
          · rcases List.mem_cons.mp hp2 with hpq | hp3
            · rw [hpq]; exact Nat.lt_of_le_of_lt (Nat.le_of_not_lt h) he2
            · exact hlt p (List.mem_cons_of_mem _ hp3)

/-- The first-occurrence key list is ordered by first-occurrence index. -/
theorem firstDedup_pairwise_indexOf (xs : List String) :
    (firstDedup xs).Pairwise (fun a b => xs.indexOf a < xs.indexOf b) := by
  induction xs with
  | nil => simp [firstDedup]
  | cons x t ih =>
    rw [firstDedup]
    refine List.Pairwise.cons ?_ ?_
    · intro b hb
      have hbx : b ≠ x := by
        have := (List.mem_filter.mp hb).2
        simpa using this
      rw [List.indexOf_cons_self, List.indexOf_cons_ne t (Ne.symm hbx)]
      exact Nat.succ_pos _
    · have hsub : ((firstDedup t).filter (fun y => y != x)).Pairwise
          (fun a b => t.indexOf a < t.indexOf b) :=
        List.Pairwise.sublist (List.filter_sublist _) ih
      refine List.Pairwise.imp_of_mem ?_ hsub
      intro a b ha hb hr
      have hax : a ≠ x := by
        have := (List.mem_filter.mp ha).2
        simpa using this
      have hbx : b ≠ x := by
        have := (List.mem_filter.mp hb).2
        simpa using this
      rw [List.indexOf_cons_ne t (Ne.symm hax), List.indexOf_cons_ne t (Ne.symm hbx)]
      exact Nat.succ_lt_succ hr

/-- Membership in the counter list characterises key and count. -/
theorem mem_counterList (xs : List String) (p : String × Nat) :
    p ∈ counterList xs ↔ p.1 ∈ firstDedup xs ∧ p.2 = xs.count p.1 := by
  unfold counterList
  rw [List.mem_map]
  constructor
  · rintro ⟨k, hk, rfl⟩
    exact ⟨hk, rfl⟩
  · rintro ⟨h1, h2⟩
    exact ⟨p.1, h1, by rw [← h2]⟩

/-- The keys of the counter list are the first-occurrence keys. -/
theorem counterList_keys (xs : List String) :
    (counterList xs).map (fun p => p.1) = firstDedup xs := by
  unfold counterList
  rw [List.map_map]
  exact List.map_id _

/-- The counter list is empty exactly on the empty input. -/
theorem counterList_eq_nil (xs : List String) :
    counterList xs = [] ↔ xs = [] := by
  unfold counterList
  rw [List.map_eq_nil_iff]
  cases xs with
  | nil => simp [firstDedup]
  | cons x t => simp [firstDedup]

/-- Characterisation of the selected entry of a nonempty counter list: its key
    occurs in the input, its count is that key's multiplicity, no key counts
    more, and equally counted keys first occur no earlier. -/
theorem counter_top_spec (xs : List String) (e : String × Nat) (rest : List (String × Nat))
    (hc : counterList xs = e :: rest) :
    (firstMax e rest).1 ∈ xs
    ∧ (firstMax e rest).2 = xs.count (firstMax e rest).1
    ∧ (∀ a ∈ xs, xs.count a ≤ (firstMax e rest).2)
    ∧ (∀ a ∈ xs, xs.count a = (firstMax e rest).2 →
        xs.indexOf (firstMax e rest).1 ≤ xs.indexOf a) := by
  obtain ⟨l₁, l₂, hsplit, hlt⟩ := firstMax_split rest e
  have hrmem : firstMax e rest ∈ counterList xs := by
    rw [hc, hsplit]
    exact List.mem_append_right _ (List.mem_cons_self _ _)
  have hr1 := (mem_counterList xs (firstMax e rest)).mp hrmem
  have hr1mem : (firstMax e rest).1 ∈ xs := (mem_firstDedup xs _).mp hr1.1
  refine ⟨hr1mem, hr1.2, ?_, ?_⟩
  · intro a ha
    have hamem : (a, xs.count a) ∈ counterList xs :=
      (mem_counterList xs (a, xs.count a)).mpr ⟨(mem_firstDedup xs a).mpr ha, rfl⟩
    rw [hc] at hamem
    exact firstMax_ge rest e _ hamem
  · intro a ha hcount
    by_cases hae : a = (firstMax e rest).1
    · rw [hae]
    · have hamem : (a, xs.count a) ∈ counterList xs :=
        (mem_counterList xs (a, xs.count a)).mpr ⟨(mem_firstDedup xs a).mpr ha, rfl⟩
      rw [hc, hsplit] at hamem
      rcases List.mem_append.mp hamem with h1 | h2
      · have hl := hlt _ h1
        simp only at hl
        rw [hcount] at hl
        exact absurd hl (Nat.lt_irrefl _)
      · rcases List.mem_cons.mp h2 with heq | h3
        · exact absurd (congrArg Prod.fst heq) hae
        · have hkeys : firstDedup xs
              = l₁.map (fun p => p.1)
                ++ (firstMax e rest).1 :: l₂.map (fun p => p.1) := by
            rw [← counterList_keys, hc, hsplit]
            simp [List.map_append]
          have hpw := firstDedup_pairwise_indexOf xs
          rw [hkeys] at hpw
          have hpw2 : ((firstMax e rest).1 :: l₂.map (fun p => p.1)).Pairwise
              (fun a b => xs.indexOf a < xs.indexOf b) :=
            List.Pairwise.sublist (List.sublist_append_right _ _) hpw
          have hmem2 : a ∈ l₂.map (fun p => p.1) :=
            List.mem_map.mpr ⟨(a, xs.count a), h3, rfl⟩
          exact Nat.le_of_lt (List.rel_of_pairwise_cons hpw2 hmem2)

/-- Specification of most_common_artist over any song list. -/
theorem most_common_artist_spec (songs : List Song) :
    (artistsOf songs = [] → most_common_artist songs = ("", 0))
    ∧ (artistsOf songs ≠ [] →
        (most_common_artist songs).1 ∈ artistsOf songs
        ∧ (most_common_artist songs).2
            = (artistsOf songs).count (most_common_artist songs).1
        ∧ (∀ a ∈ artistsOf songs,
            (artistsOf songs).count a ≤ (most_common_artist songs).2)
        ∧ (∀ a ∈ artistsOf songs,
            (artistsOf songs).count a = (most_common_artist songs).2 →
            (artistsOf songs).indexOf (most_common_artist songs).1
              ≤ (artistsOf songs).indexOf a)) := by
  cases hc : counterList (artistsOf songs) with
  | nil =>
    have hxs : artistsOf songs = [] := (counterList_eq_nil _).mp hc
    constructor
    · intro _
      unfold most_common_artist
      rw [hc]
    · intro hne
      exact absurd hxs hne
  | cons e rest =>
    have hxs : artistsOf songs ≠ [] := by
      intro hh
      rw [(counterList_eq_nil _).mpr hh] at hc
      exact List.noConfusion hc
    constructor
    · intro hh
      exact absurd hh hxs
    · intro _
      have hval : most_common_artist songs = firstMax e rest := by
        unfold most_common_artist
        rw [hc]
      rw [hval]
      exact counter_top_spec (artistsOf songs) e rest hc

/-- C7: compute_playlist_stats reports as top_artist the non-empty artist
    value with the highest multiplicity in the flattened song list, together
    with that multiplicity; a tie goes to the artist first encountered in
    flattening order; with no non-empty artist the pair is the empty string
    and zero. -/
theorem top_artist_spec (pl : PlaylistMap) :
    (artistsOf (allSongs pl) = [] →
      (compute_playlist_stats pl).top_artist = ""
      ∧ (compute_playlist_stats pl).top_artist_count = 0)
    ∧ (artistsOf (allSongs pl) ≠ [] →
      (compute_playlist_stats pl).top_artist ∈ artistsOf (allSongs pl)
      ∧ (compute_playlist_stats pl).top_artist_count
          = (artistsOf (allSongs pl)).count (compute_playlist_stats pl).top_artist
      ∧ (∀ a ∈ artistsOf (allSongs pl),
          (artistsOf (allSongs pl)).count a
            ≤ (compute_playlist_stats pl).top_artist_count)
      ∧ (∀ a ∈ artistsOf (allSongs pl),
          (artistsOf (allSongs pl)).count a
              = (compute_playlist_stats pl).top_artist_count →
          (artistsOf (allSongs pl)).indexOf (compute_playlist_stats pl).top_artist
            ≤ (artistsOf (allSongs pl)).indexOf a)) := by
  have hm := most_common_artist_spec (allSongs pl)
  constructor
  · intro h
    have h0 := hm.1 h
    constructor
    · show (most_common_artist (allSongs pl)).1 = ""
      rw [h0]
    · show (most_common_artist (allSongs pl)).2 = 0
      rw [h0]
  · exact hm.2

/-- Witness for C7: with artists crows, bird, crows in the flattened list the
    reported top artist is a member of the artist list and its count is that
    artist's multiplicity, concretely crows with count 2. -/
theorem top_artist_spec_witness :
    ((compute_playlist_stats
        [("Hype", [[("artist", PyVal.vstr "crows")], [("artist", PyVal.vstr "bird")]]),
         ("Chill", [[("artist", PyVal.vstr "crows")]])]).top_artist
      ∈ artistsOf (allSongs
        [("Hype", [[("artist", PyVal.vstr "crows")], [("artist", PyVal.vstr "bird")]]),
         ("Chill", [[("artist", PyVal.vstr "crows")]])]))
    ∧ (compute_playlist_stats
        [("Hype", [[("artist", PyVal.vstr "crows")], [("artist", PyVal.vstr "bird")]]),
         ("Chill", [[("artist", PyVal.vstr "crows")]])]).top_artist = "crows"
    ∧ (compute_playlist_stats
        [("Hype", [[("artist", PyVal.vstr "crows")], [("artist", PyVal.vstr "bird")]]),
         ("Chill", [[("artist", PyVal.vstr "crows")]])]).top_artist_count = 2 := by
  have h := (top_artist_spec
    [("Hype", [[("artist", PyVal.vstr "crows")], [("artist", PyVal.vstr "bird")]]),
     ("Chill", [[("artist", PyVal.vstr "crows")]])]).2 (by decide)
  exact ⟨h.1, rfl, rfl⟩
